import Mathlib

/-!
Shallow embedding of the yass configuration layer (src/yass/config.py):
the FrozenJSON attribute facade, the Config constructor with schema
validation, the immutability guard, and the batch-partition arithmetic.
Mappings are modelled as association lists with Python-dict update
semantics (assignment replaces in place, otherwise appends); YAML values
are modelled by the inductive type JVal.
-/

namespace Yass

/-- YAML/JSON-like values as parsed into the source mapping: null, booleans,
numbers, strings, sequences and nested mappings. -/
inductive JVal where
  | null : JVal
  | bool (b : Bool) : JVal
  | num (n : Int) : JVal
  | str (s : String) : JVal
  | arr (xs : List JVal) : JVal
  | obj (kvs : List (String × JVal)) : JVal
deriving Repr

/-- Python keyword list, as consulted by keyword.iskeyword in
FrozenJSON.__init__ (config.py line 52). -/
def pythonKeywords : List String :=
  ["False", "None", "True", "and", "as", "assert", "async", "await",
   "break", "class", "continue", "def", "del", "elif", "else", "except",
   "finally", "for", "from", "global", "if", "import", "in", "is",
   "lambda", "nonlocal", "not", "or", "pass", "raise", "return", "try",
   "while", "with", "yield"]

/-- Model of keyword.iskeyword. -/
def iskeyword (k : String) : Bool := pythonKeywords.contains k

/-- Key munging applied by FrozenJSON.__init__ (config.py lines 52-53):
a key that is a Python keyword gets a fixed underscore suffix appended. -/
def mungeKey (k : String) : String := if iskeyword k then k ++ "_" else k

/-- Python dict assignment d[k] = v: replaces the value in place when the key
is present, otherwise appends the new binding (insertion order preserved). -/
def dictInsert (d : List (String × JVal)) (k : String) (v : JVal) :
    List (String × JVal) :=
  if d.any (fun p => p.1 == k) then
    d.map (fun p => if p.1 = k then (k, v) else p)
  else d ++ [(k, v)]

/-- The _data dict built by FrozenJSON.__init__ (config.py lines 48-55):
iterates the input mapping in order, munges keyword keys, and stores the raw
value under the (possibly munged) key. -/
def buildData (mapping : List (String × JVal)) : List (String × JVal) :=
  mapping.foldl (fun d p => dictInsert d (mungeKey p.1) p.2) []

/-- First-match association-list lookup; on a dict built by dictInsert keys
are unique, so this is Python dict lookup / dict.get. -/
def lookupStr {α : Type} : List (String × α) → String → Option α
  | [], _ => none
  | p :: rest, k => if p.1 = k then some p.2 else lookupStr rest k

/-- Model of dict.keys(): the stored key names in insertion order. -/
def keysOf (d : List (String × JVal)) : List String := d.map (fun p => p.1)

/-- State of a FrozenJSON instance: the _data store and the _path_to_file
slot (None unless loaded through from_yaml). -/
structure FacadeData where
  data : List (String × JVal)
  pathToFile : Option String

/-- Payload of the ValueError raised by FrozenJSON.__getitem__ (config.py
lines 70-73): the looked-up key, the source path and the full list of
currently stored keys, all rendered into the message. -/
structure MissingKeyError where
  key : String
  pathToFile : Option String
  availableKeys : List String
deriving DecidableEq, Repr

/-- FrozenJSON.__getitem__ (config.py lines 66-75): obtain the raw stored
value via dict.get; when that yields None (key absent, or value explicitly
null) raise the diagnostic error; otherwise return the value unwrapped. -/
def getItem (fj : FacadeData) (key : String) : Except MissingKeyError JVal :=
  match lookupStr fj.data key with
  | none => .error ⟨key, fj.pathToFile, keysOf fj.data⟩
  | some .null => .error ⟨key, fj.pathToFile, keysOf fj.data⟩
  | some v => .ok v

/-- Result of recursively wrapping a value, FrozenJSON.__new__ (config.py
lines 34-41): a mapping becomes a facade (whose _data is built by __init__),
a mutable sequence becomes the list of wrapped elements, anything else is
returned unchanged. -/
inductive Wrapped where
  | facade (data : List (String × JVal)) : Wrapped
  | seq (xs : List Wrapped) : Wrapped
  | scalar (v : JVal) : Wrapped
deriving Repr

/-- FrozenJSON construction, combining __new__ dispatch with __init__ data
building (config.py lines 34-55). -/
def wrap : JVal → Wrapped
  | .obj kvs => .facade (buildData kvs)
  | .arr xs => .seq (xs.attach.map fun x => wrap x.1)
  | v => .scalar v
decreasing_by
  simp only [JVal.arr.sizeOf_spec]
  have h := List.sizeOf_lt_of_mem x.2
  omega

/-- Keys of the facade produced by wrap, when the result is a facade. -/
def facadeKeys : Wrapped → Option (List String)
  | .facade d => some (keysOf d)
  | _ => none

/-- Scalar discriminator: values that are neither mappings nor sequences. -/
def isScalar : JVal → Bool
  | .obj _ => false
  | .arr _ => false
  | _ => true

/-- Attribute names exposed by the underlying raw dict object itself, used
by the hasattr check in FrozenJSON.__getattr__ (config.py line 58). -/
def dictAttrNames : List String :=
  ["clear", "copy", "fromkeys", "get", "items", "keys", "pop", "popitem",
   "setdefault", "update", "values"]

/-- Outcome of FrozenJSON.__getattr__ (config.py lines 57-61): a member of
the raw dict object is returned directly; otherwise the name indexes _data
and the result is wrapped; an absent name raises plain KeyError(name),
which carries only the key, none of the diagnostic payload. -/
inductive AttrResult where
  | dictMember (name : String) : AttrResult
  | wrapped (w : Wrapped) : AttrResult
  | keyError (key : String) : AttrResult
deriving Repr

/-- FrozenJSON.__getattr__ (config.py lines 57-61). -/
def getattr (fj : FacadeData) (name : String) : AttrResult :=
  if dictAttrNames.contains name then .dictMember name
  else
    match lookupStr fj.data name with
    | some v => .wrapped (wrap v)
    | none => .keyError name

/-- Payload of the AttributeError raised by Config.__setattr__. -/
structure AttrError where
  msg : String
deriving DecidableEq, Repr

/-- The fixed message of the AttributeError raised by Config.__setattr__
(config.py lines 171-172). -/
def immutableMsg : String :=
  "Cannot set values once the object has been initialized"

/-- State of a Config instance: the underscore-named slots of the instance
__dict__ (logger, path, and the _data reference) and the _data store. -/
structure ConfigState where
  internal : List (String × JVal)
  data : List (String × JVal)

/-- Test of name.startswith with the one-character underscore marker, on the
character data of the name. -/
def startsUnderscore (name : String) : Bool :=
  match name.data with
  | [] => false
  | c :: _ => c == '_'

/-- Config.__setattr__ (config.py lines 169-174): a name that does not start
with an underscore raises AttributeError with a fixed message, before any
state is touched; an underscore-prefixed name is written into the instance
__dict__. Returns the raised error (if any) together with the state after
the call. -/
def configSetattr (st : ConfigState) (name : String) (v : JVal) :
    Option AttrError × ConfigState :=
  if startsUnderscore name then
    (none, { st with internal := dictInsert st.internal name v })
  else
    (some ⟨immutableMsg⟩, st)

/-- Config._set_param (config.py lines 176-181): a plain dict assignment
into _data, bypassing __setattr__. -/
def setParam (st : ConfigState) (name : String) (v : JVal) : ConfigState :=
  { st with data := dictInsert st.data name v }

/-- The names written by the deriver part of Config.__init__, in program
order (config.py lines 106-156); both branches of the batch plan write the
same final four names. -/
def derivedKeys : List String :=
  ["geom", "neighChannels", "channelGroups", "spikeSize", "scaleToSave",
   "BUFF", "templatesMaxShift", "stdFactor", "size", "dsize", "nBatches",
   "batch_size", "residual", "nPortion"]

/-- The derivation pass of Config.__init__ at the level of store updates:
each derived field is written through _set_param in the fixed order of
derivedKeys; the computed values (geometry results, window sizes, batch
plan) are abstracted into the vals function since only the key behaviour
of the store is at stake here. -/
def runDeriver (d : List (String × JVal)) (vals : String → JVal) :
    List (String × JVal) :=
  derivedKeys.foldl (fun st k => dictInsert st k (vals k)) d

/-- Payload of the ValueError raised by Config._validate (config.py lines
196-198): the offending value, the offending key, and the rendered
permitted-value set. -/
structure ValidationError where
  value : JVal
  key : String
  validValues : String

/-- Config._pretty_iterator (config.py lines 200-201): reduce with a comma
separator. The empty case is unreachable from _validate (the truthiness
guard skips empty lists); on an empty iterable the Python reduce would
raise TypeError. -/
def prettyIterator : List String → String
  | [] => ""
  | x :: xs => xs.foldl (fun a b => a ++ ", " ++ b) x

/-- Python membership test of a config value in a list of permitted string
values (config.py line 194): only an equal string is a member. -/
def pyMem (v : JVal) (vs : List String) : Bool :=
  match v with
  | .str s => vs.contains s
  | _ => false

/-- Config._validate (config.py lines 183-198): iterate the input mapping in
order; for each key the schema constrains (validator.get is not None and
not empty, by Python truthiness), check membership of the supplied value;
the first violation raises with value, key, and the rendered set. -/
def validate (validator : List (String × List String)) :
    List (String × JVal) → Option ValidationError
  | [] => none
  | (k, v) :: rest =>
    match lookupStr validator k with
    | some vs =>
      if vs.isEmpty then validate validator rest
      else if pyMem v vs then validate validator rest
      else some ⟨v, k, prettyIterator vs⟩
    | none => validate validator rest

/-- Config.__init__ at the store level (config.py lines 95-156): validation
runs first; a violation aborts construction with the error and no store is
built; otherwise the facade store is built from the mapping and the deriver
appends the derived fields (their computed values abstracted into vals). -/
def configInit (validator : List (String × List String))
    (mapping : List (String × JVal)) (vals : String → JVal) :
    Except ValidationError (List (String × JVal)) :=
  match validate validator mapping with
  | some e => .error e
  | none => .ok (runDeriver (buildData mapping) vals)

/-- The sizeof lookup table (config.py lines 204-209); an unknown dtype name
raises KeyError, modelled as none. -/
def sizeof (dtype : String) : Option Nat :=
  lookupStr [("int16", 2), ("uint16", 2), ("single", 4), ("double", 8)] dtype

/-- The derived batch-partition plan (config.py lines 144-156): nBatches,
batch_size and residual are integers; nPortion is set to the Python int 1
in the single-batch branch and to the np.ceil float in the other, modelled
as the integer value of the ceiling. -/
structure BatchPlan where
  nBatches : Nat
  batch_size : Nat
  residual : Nat
  nPortion : Int
deriving DecidableEq, Repr

/-- The per-batch sample budget, config.py line 144:
int(np.floor(maxMem / (nChan * dsize))), i.e. floor division. -/
def maxSamplesPerBatch (maxMem nChan dsize : Nat) : Nat :=
  maxMem / (nChan * dsize)

/-- Integer form of int(np.ceil(float(a) / b)) used at config.py line 152;
proved below to agree with the rational ceiling of a / b for b positive. -/
def ceilDiv (a b : Nat) : Nat := (a + b - 1) / b

/-- The batch-plan branch of Config.__init__ (config.py lines 144-156):
batch_size here is the local variable of line 144 and size the total sample
count; the condition is the strict comparison batch_size > size. The
partial-data fraction partialDat is modelled as an exact rational. -/
def batchPlan (maxMem nChan dsize size : Nat) (pDat : ℚ) : BatchPlan :=
  if size < maxSamplesPerBatch maxMem nChan dsize then
    ⟨1, size, 0, 1⟩
  else
    ⟨ceilDiv size (maxSamplesPerBatch maxMem nChan dsize),
     maxSamplesPerBatch maxMem nChan dsize,
     size % maxSamplesPerBatch maxMem nChan dsize,
     ⌈pDat * (ceilDiv size (maxSamplesPerBatch maxMem nChan dsize) : ℕ)⌉⟩

/-- Concrete value function for the deriver with the fixed constant
stdFactor = 4 from config.py line 135 (other values irrelevant to the
key-collision behaviour under study). -/
def stdFactorVals : String → JVal :=
  fun k => if k = "stdFactor" then JVal.num 4 else JVal.null

/-- Substring test over the character data, used to state that an error
message does or does not mention a given name. -/
def containsSub (s t : String) : Bool :=
  (List.range (s.data.length + 1)).any fun i =>
    (s.data.drop i).take t.data.length == t.data

/-- Helper: the integer formula (a + b - 1) / b embedded for
int(np.ceil(float(a) / b)) agrees with the rational ceiling of a / b. -/
theorem ceilDiv_eq_ceil (a b : Nat) (hb : 0 < b) :
    ((ceilDiv a b : ℕ) : ℤ) = ⌈(a : ℚ) / b⌉ := by
  have hbq : (0 : ℚ) < (b : ℚ) := by exact_mod_cast hb
  rcases Nat.eq_zero_or_pos a with ha | ha
  · subst ha
    have hq : ceilDiv 0 b = 0 := by
      unfold ceilDiv
      exact Nat.div_eq_of_lt (by omega)
    rw [hq]
    norm_num
  · have hdm := Nat.div_add_mod (a + b - 1) b
    have hml := Nat.mod_lt (a + b - 1) hb
    have h1 : a ≤ b * ceilDiv a b := by unfold ceilDiv; omega
    have h2 : b * ceilDiv a b + 1 ≤ a + b := by unfold ceilDiv; omega
    symm
    rw [Int.ceil_eq_iff]
    push_cast
    constructor
    · rw [lt_div_iff₀ hbq]
      have h2q : (b : ℚ) * (ceilDiv a b : ℚ) + 1 ≤ (a : ℚ) + b := by
        exact_mod_cast h2
      nlinarith
    · rw [div_le_iff₀ hbq]
      have h1q : (a : ℚ) ≤ (b : ℚ) * (ceilDiv a b : ℚ) := by exact_mod_cast h1
      nlinarith

/-- C1 counterexample: with nChan = 10, dsize = 2, maxMem = 10000 the budget
maxSamplesPerBatch is 500; at total sample count exactly 500 (the boundary
case the claim covers through its greater-than-or-equal condition) and
partial-data fraction 2, the code takes the multi-batch branch (its test is
the strict batch_size > size) and sets nPortion to ceil(2 * 1) = 2, not 1
as the claim requires. -/
theorem c1_counterexample :
    500 ≤ maxSamplesPerBatch 10000 10 2 ∧
    (batchPlan 10000 10 2 500 2).nPortion = 2 ∧
    (batchPlan 10000 10 2 500 2).nPortion ≠ 1 := by
  refine ⟨by norm_num [maxSamplesPerBatch], ?_, ?_⟩ <;>
    norm_num [batchPlan, maxSamplesPerBatch, ceilDiv]

/-- C1 amended: the single-batch branch runs only when maxSamplesPerBatch is
strictly greater than the total sample count, and then the plan is exactly
nBatches = 1, batch_size = size, residual = 0, nPortion = 1; at exact
equality the multi-batch branch runs instead, which still gives nBatches =
1, batch_size = size, residual = 0, but nPortion = ceil(partialDat). -/
theorem c1_single_batch (maxMem nChan dsize size : Nat) (pd : ℚ) :
    (size < maxSamplesPerBatch maxMem nChan dsize →
      batchPlan maxMem nChan dsize size pd = ⟨1, size, 0, 1⟩) ∧
    (maxSamplesPerBatch maxMem nChan dsize = size → 0 < size →
      batchPlan maxMem nChan dsize size pd = ⟨1, size, 0, ⌈pd⌉⟩) := by
  constructor
  · intro h
    simp [batchPlan, h]
  · intro he hpos
    have hnot : ¬ size < maxSamplesPerBatch maxMem nChan dsize := by omega
    have h1 : ceilDiv size size = 1 := by
      unfold ceilDiv
      refine Nat.div_eq_of_lt_le (by omega) (by omega)
    rw [batchPlan, if_neg hnot, he, h1]
    simp [Nat.mod_self]

/-- Witness for C1 on the boundary quantities from the spec: budget 500
against sizes 400 (strict case) and 500 (equality case, fraction 1/2). -/
theorem c1_single_batch_witness :
    batchPlan 10000 10 2 400 (1/2) = ⟨1, 400, 0, 1⟩ ∧
    batchPlan 10000 10 2 500 (1/2) = ⟨1, 500, 0, 1⟩ := by
  constructor
  · exact (c1_single_batch 10000 10 2 400 (1/2)).1
      (by norm_num [maxSamplesPerBatch])
  · have h := (c1_single_batch 10000 10 2 500 (1/2)).2
      (by norm_num [maxSamplesPerBatch]) (by norm_num)
    rw [h]
    simp only [BatchPlan.mk.injEq]
    exact ⟨trivial, trivial, trivial, Int.ceil_eq_iff.mpr (by norm_num)⟩

/-- C2: when maxSamplesPerBatch is below the total sample count, the plan is
nBatches = ceil(size / maxSamplesPerBatch) (the true rational ceiling),
batch_size = maxSamplesPerBatch, residual = size mod maxSamplesPerBatch and
nPortion = ceil(partialDat * nBatches); and for nChan = 10, element byte
size 2 (the int16 entry of the sizeof table), maxMem = 10000 and size =
1200 this gives nBatches = 3, batch_size = 500, residual = 200. -/
theorem c2_multi_batch (maxMem nChan dsize size : Nat) (pd : ℚ)
    (hbs : 0 < maxSamplesPerBatch maxMem nChan dsize)
    (hlt : maxSamplesPerBatch maxMem nChan dsize < size) :
    (((batchPlan maxMem nChan dsize size pd).nBatches : ℤ) =
      ⌈(size : ℚ) / (maxSamplesPerBatch maxMem nChan dsize : ℚ)⌉ ∧
     (batchPlan maxMem nChan dsize size pd).batch_size =
      maxSamplesPerBatch maxMem nChan dsize ∧
     (batchPlan maxMem nChan dsize size pd).residual =
      size % maxSamplesPerBatch maxMem nChan dsize ∧
     (batchPlan maxMem nChan dsize size pd).nPortion =
      ⌈pd * ((batchPlan maxMem nChan dsize size pd).nBatches : ℚ)⌉) ∧
    (sizeof "int16" = some 2 ∧
     (batchPlan 10000 10 2 1200 pd).nBatches = 3 ∧
     (batchPlan 10000 10 2 1200 pd).batch_size = 500 ∧
     (batchPlan 10000 10 2 1200 pd).residual = 200) := by
  have hnot : ¬ size < maxSamplesPerBatch maxMem nChan dsize := by omega
  refine ⟨⟨?_, ?_, ?_, ?_⟩, ⟨rfl, ?_, ?_, ?_⟩⟩
  · rw [batchPlan, if_neg hnot]
    exact ceilDiv_eq_ceil size _ hbs
  · rw [batchPlan, if_neg hnot]
  · rw [batchPlan, if_neg hnot]
  · rw [batchPlan, if_neg hnot]
  all_goals norm_num [batchPlan, maxSamplesPerBatch, ceilDiv]

/-- Witness for C2 at the quantities of the spec boundary example, with
partial-data fraction 1/2 (so nPortion = ceil(3/2) = 2). -/
theorem c2_multi_batch_witness :
    (batchPlan 10000 10 2 1200 (1/2)).nBatches = 3 ∧
    (batchPlan 10000 10 2 1200 (1/2)).batch_size = 500 ∧
    (batchPlan 10000 10 2 1200 (1/2)).residual = 200 := by
  have h := c2_multi_batch 10000 10 2 1200 (1/2)
    (by norm_num [maxSamplesPerBatch]) (by norm_num [maxSamplesPerBatch])
  exact h.2.2

/-- Helper: inserting a fresh key appends the binding. -/
theorem dictInsert_of_not_mem (d : List (String × JVal)) (k : String)
    (v : JVal) (h : k ∉ d.map Prod.fst) : dictInsert d k v = d ++ [(k, v)] := by
  unfold dictInsert
  rw [if_neg]
  simp only [List.any_eq_true, beq_iff_eq, not_exists]
  intro p hp
  exact h (hp.2 ▸ List.mem_map_of_mem Prod.fst hp.1)

/-- Helper: a successful lookup in the left part survives appending. -/
theorem lookupStr_append_of_some {α : Type} (d1 d2 : List (String × α))
    (k : String) (v : α) (h : lookupStr d1 k = some v) :
    lookupStr (d1 ++ d2) k = some v := by
  induction d1 with
  | nil => cases h
  | cons p rest ih =>
    by_cases hpk : p.1 = k
    · simp only [lookupStr, if_pos hpk] at h
      simp only [List.cons_append, lookupStr, if_pos hpk]
      exact h
    · simp only [lookupStr, if_neg hpk] at h
      simp only [List.cons_append, lookupStr, if_neg hpk]
      exact ih h

/-- Helper: lookup walks past a left part that lacks the key. -/
theorem lookupStr_append_of_none {α : Type} (d1 d2 : List (String × α))
    (k : String) (h : lookupStr d1 k = none) :
    lookupStr (d1 ++ d2) k = lookupStr d2 k := by
  induction d1 with
  | nil => rfl
  | cons p rest ih =>
    by_cases hpk : p.1 = k
    · simp only [lookupStr, if_pos hpk] at h
      cases h
    · simp only [lookupStr, if_neg hpk] at h
      simp only [List.cons_append, lookupStr, if_neg hpk]
      exact ih h

/-- Helper: lookup fails exactly on keys outside the key list. -/
theorem lookupStr_eq_none {α : Type} (d : List (String × α)) (k : String)
    (h : k ∉ d.map Prod.fst) : lookupStr d k = none := by
  induction d with
  | nil => rfl
  | cons p rest ih =>
    simp only [List.map_cons, List.mem_cons, not_or] at h
    simp only [lookupStr, if_neg (fun he => h.1 (Eq.symm he))]
    exact ih h.2

/-- Helper: a successful lookup comes from a stored binding. -/
theorem lookupStr_mem {α : Type} (d : List (String × α)) (k : String)
    (v : α) (h : lookupStr d k = some v) : (k, v) ∈ d := by
  induction d with
  | nil => cases h
  | cons p rest ih =>
    by_cases hpk : p.1 = k
    · simp only [lookupStr, if_pos hpk] at h
      injection h with h2
      have hp2 : p = (k, v) := by
        obtain ⟨a, b⟩ := p
        simp only at hpk h2
        rw [hpk, h2]
      exact List.mem_cons.mpr (Or.inl hp2.symm)
    · simp only [lookupStr, if_neg hpk] at h
      exact List.mem_cons_of_mem p (ih h)

/-- Helper: with pairwise distinct keys, lookup finds any stored binding. -/
theorem lookupStr_of_mem_nodup {α : Type} (d : List (String × α))
    (k : String) (v : α) (hnd : (d.map Prod.fst).Nodup)
    (hmem : (k, v) ∈ d) : lookupStr d k = some v := by
  induction d with
  | nil => cases hmem
  | cons p rest ih =>
    simp only [List.map_cons, List.nodup_cons] at hnd
    rcases List.mem_cons.mp hmem with he | hr
    · rw [← he]
      simp [lookupStr]
    · have hne : p.1 ≠ k := by
        intro he2
        exact hnd.1 (he2 ▸ List.mem_map_of_mem Prod.fst hr)
      simp only [lookupStr, if_neg hne]
      exact ih hnd.2 hr

/-- Helper: when the munged keys are pairwise distinct, the _data dict built
by FrozenJSON.__init__ is exactly the input with munged keys, in order. -/
theorem buildData_eq_map (mapping : List (String × JVal))
    (hnd : (mapping.map fun q => mungeKey q.1).Nodup) :
    buildData mapping = mapping.map fun q => (mungeKey q.1, q.2) := by
  suffices h : ∀ (m : List (String × JVal)) (acc : List (String × JVal)),
      (acc.map Prod.fst ++ m.map fun q => mungeKey q.1).Nodup →
      m.foldl (fun d p => dictInsert d (mungeKey p.1) p.2) acc
        = acc ++ m.map fun q => (mungeKey q.1, q.2) by
    have h2 := h mapping [] (by simpa using hnd)
    simpa [buildData] using h2
  intro m
  induction m with
  | nil => intro acc _; simp
  | cons p rest ih =>
    intro acc hacc
    have hfresh : mungeKey p.1 ∉ acc.map Prod.fst := by
      intro hmem
      rcases (List.nodup_append.mp hacc) with ⟨_, _, hdisj⟩
      exact hdisj hmem (by simp)
    rw [List.foldl_cons, dictInsert_of_not_mem acc (mungeKey p.1) p.2 hfresh]
    have hacc2 : ((acc ++ [(mungeKey p.1, p.2)]).map Prod.fst ++
        rest.map fun q => mungeKey q.1).Nodup := by
      simp only [List.map_append, List.map_cons, List.map_nil] at hacc ⊢
      simpa [List.append_assoc, List.singleton_append] using hacc
    rw [ih (acc ++ [(mungeKey p.1, p.2)]) hacc2]
    simp

/-- Helper: no Python keyword ends with an underscore. -/
theorem keyword_no_underscore :
    pythonKeywords.all (fun s => s.data.getLast? != some '_') = true := by
  decide

/-- Helper: get_item returns ok on a present non-null binding. -/
theorem getItem_ok (d : List (String × JVal)) (p : Option String)
    (key : String) (v : JVal) (h : lookupStr d key = some v)
    (hnull : v ≠ JVal.null) : getItem ⟨d, p⟩ key = Except.ok v := by
  cases v with
  | null => exact absurd rfl hnull
  | bool b => simp [getItem, h]
  | num n => simp [getItem, h]
  | str s => simp [getItem, h]
  | arr xs => simp [getItem, h]
  | obj kvs => simp [getItem, h]

/-- C3 counterexample: the supplied key class (a reserved keyword) is stored
under the modified name with the underscore suffix, but looking it up by its
ORIGINAL name does not succeed: get_item raises the missing-key error, since
nothing is stored under the unmodified name. -/
theorem c3_counterexample :
    iskeyword "class" = true ∧
    buildData [("class", JVal.num 42)] = [("class_", JVal.num 42)] ∧
    getItem ⟨buildData [("class", JVal.num 42)], none⟩ "class" =
      Except.error ⟨"class", none, ["class_"]⟩ := by
  refine ⟨by decide, ?_, ?_⟩ <;> rfl

/-- C3 amended: a supplied key equal to a reserved keyword is stored under
the key with the fixed underscore suffix appended, and lookup under that
MODIFIED name succeeds and returns the supplied value; lookup by the
original (unmodified) key name fails with the missing-key error (the munged
keys are assumed pairwise distinct, as dict storage otherwise collapses
them). -/
theorem c3_keyword_collision (mapping : List (String × JVal)) (key : String)
    (v : JVal) (p : Option String)
    (hk : iskeyword key = true)
    (hv : lookupStr mapping key = some v)
    (hnd : (mapping.map fun q => mungeKey q.1).Nodup)
    (hnull : v ≠ JVal.null) :
    lookupStr (buildData mapping) (key ++ "_") = some v ∧
    getItem ⟨buildData mapping, p⟩ (key ++ "_") = Except.ok v ∧
    getItem ⟨buildData mapping, p⟩ key =
      Except.error ⟨key, p, keysOf (buildData mapping)⟩ := by
  have hbd := buildData_eq_map mapping hnd
  have hmunge : mungeKey key = key ++ "_" := by
    simp [mungeKey, hk]
  have hmem : (key, v) ∈ mapping := lookupStr_mem mapping key v hv
  have hmem2 : (mungeKey key, v) ∈
      mapping.map fun q => (mungeKey q.1, q.2) :=
    List.mem_map_of_mem _ hmem
  have hkeys : (((mapping.map fun q => (mungeKey q.1, q.2)).map
      Prod.fst)).Nodup := by
    rw [List.map_map]
    exact hnd
  have hlook2 : lookupStr (buildData mapping) (key ++ "_") = some v := by
    rw [← hmunge, hbd]
    exact lookupStr_of_mem_nodup _ _ _ hkeys hmem2
  refine ⟨hlook2, getItem_ok _ p _ v hlook2 hnull, ?_⟩
  have hnotin : key ∉ (buildData mapping).map Prod.fst := by
    rw [hbd]
    intro hmemk
    rcases List.mem_map.mp hmemk with ⟨pr, hpr, hpre⟩
    rcases List.mem_map.mp hpr with ⟨q, hq, hqe⟩
    rw [← hqe] at hpre
    simp only at hpre
    by_cases hkw : iskeyword q.1
    · have he : q.1 ++ "_" = key := by
        rw [← hpre]
        simp [mungeKey, hkw]
      have hlast : key.data.getLast? = some '_' := by
        rw [← he, String.data_append]
        have hu : ("_" : String).data = ['_'] := rfl
        rw [hu]
        exact List.getLast?_concat _
      have hinkw : key ∈ pythonKeywords := by
        have hk2 := hk
        unfold iskeyword List.contains at hk2
        exact List.elem_iff.mp hk2
      have hall := keyword_no_underscore
      rw [List.all_eq_true] at hall
      have hx := hall key hinkw
      rw [hlast] at hx
      simp at hx
    · have he : q.1 = key := by
        rw [← hpre]
        simp [mungeKey, hkw]
      rw [he] at hkw
      exact hkw hk
  have hnone := lookupStr_eq_none _ key hnotin
  simp [getItem, hnone, keysOf]

/-- Witness for C3 on a concrete mapping supplying the reserved keyword
class together with an ordinary key. -/
theorem c3_keyword_collision_witness :
    lookupStr (buildData [("class", JVal.num 42), ("nChan", JVal.num 10)])
      "class_" = some (JVal.num 42) ∧
    getItem ⟨buildData [("class", JVal.num 42), ("nChan", JVal.num 10)],
      none⟩ "class_" = Except.ok (JVal.num 42) := by
  have h := c3_keyword_collision
    [("class", JVal.num 42), ("nChan", JVal.num 10)] "class"
    (JVal.num 42) none (by decide) rfl (by decide) (by simp)
  exact ⟨h.1, h.2.1⟩

/-- Helper: wrapping a sequence wraps each element in order. -/
theorem wrap_arr (xs : List JVal) :
    wrap (JVal.arr xs) = Wrapped.seq (xs.map wrap) := by
  rw [wrap]
  congr 1
  exact List.attach_map_val xs wrap

/-- C7 counterexample: wrapping a mapping whose key is the reserved keyword
class yields a facade whose keys() is the munged list, not the mapping's key
set. -/
theorem c7_counterexample :
    facadeKeys (wrap (JVal.obj [("class", JVal.num 1)])) = some ["class_"] ∧
    some ["class_"] ≠ some ["class"] := by
  constructor
  · rw [wrap]
    rfl
  · simp

/-- C7 amended: wrap on a mapping yields a facade whose keys() equals the
mapping's keys with every reserved-keyword key given the underscore suffix
(here under the assumption that the munged keys are distinct; equal munged
keys collapse by dict semantics); wrap on a sequence yields a sequence of
the same length whose i-th element is wrap of the input's i-th element; and
wrap on a scalar returns the value unchanged. -/
theorem c7_wrap (kvs : List (String × JVal)) (xs : List JVal) :
    ((kvs.map fun q => mungeKey q.1).Nodup →
      facadeKeys (wrap (JVal.obj kvs)) =
        some (kvs.map fun q => mungeKey q.1)) ∧
    (wrap (JVal.arr xs) = Wrapped.seq (xs.map wrap) ∧
     (xs.map wrap).length = xs.length ∧
     ∀ i : Nat, (xs.map wrap)[i]? = (xs[i]?).map wrap) ∧
    (∀ v, isScalar v = true → wrap v = Wrapped.scalar v) := by
  refine ⟨?_, ⟨wrap_arr xs, List.length_map xs wrap,
    fun i => List.getElem?_map wrap xs i⟩, ?_⟩
  · intro hnd
    rw [wrap]
    show some (keysOf (buildData kvs)) = _
    rw [buildData_eq_map kvs hnd]
    simp [keysOf, List.map_map]
  · intro v hs
    cases v with
    | null => rw [wrap] <;> simp
    | bool b => rw [wrap] <;> simp
    | num n => rw [wrap] <;> simp
    | str s => rw [wrap] <;> simp
    | arr ys => cases hs
    | obj p => cases hs

/-- Witness for C7 on a concrete nested value with a keyword key, a
sequence and scalars. -/
theorem c7_wrap_witness :
    facadeKeys (wrap (JVal.obj [("class", JVal.num 1), ("root", JVal.str "a")]))
      = some ["class_", "root"] ∧
    wrap (JVal.arr [JVal.num 1, JVal.null]) =
      Wrapped.seq [wrap (JVal.num 1), wrap JVal.null] ∧
    wrap (JVal.str "x") = Wrapped.scalar (JVal.str "x") := by
  have h := c7_wrap [("class", JVal.num 1), ("root", JVal.str "a")]
    [JVal.num 1, JVal.null]
  refine ⟨?_, ?_, ?_⟩
  · exact h.1 (by decide)
  · exact h.2.1.1
  · exact h.2.2 (JVal.str "x") (by decide)

/-- Helper: a key present in the key list has a value. -/
theorem lookupStr_mem_keys {α : Type} (d : List (String × α)) (k : String)
    (h : k ∈ d.map Prod.fst) : ∃ v, lookupStr d k = some v := by
  induction d with
  | nil => cases h
  | cons p rest ih =>
    by_cases hpk : p.1 = k
    · exact ⟨p.2, by simp only [lookupStr, if_pos hpk]⟩
    · simp only [List.map_cons, List.mem_cons] at h
      rcases h with he | hr
      · exact absurd he.symm hpk
      · obtain ⟨v, hv⟩ := ih hr
        refine ⟨v, ?_⟩
        simp only [lookupStr, if_neg hpk]
        exact hv

/-- Helper: folding fresh, pairwise-distinct key inserts appends the new
bindings in order and preserves every existing binding. -/
theorem foldl_dictInsert_fresh (ks : List String) (vals : String → JVal) :
    ∀ d : List (String × JVal),
      (∀ k, k ∈ ks → k ∉ d.map Prod.fst) → ks.Nodup →
      (ks.foldl (fun st k2 => dictInsert st k2 (vals k2)) d).map Prod.fst =
          d.map Prod.fst ++ ks ∧
      ∀ k, k ∈ d.map Prod.fst →
        lookupStr (ks.foldl (fun st k2 => dictInsert st k2 (vals k2)) d) k =
          lookupStr d k := by
  induction ks with
  | nil =>
    intro d _ _
    simp
  | cons k0 rest ih =>
    intro d hfresh hnd
    rw [List.foldl_cons]
    have hk0 : k0 ∉ d.map Prod.fst := hfresh k0 (by simp)
    rw [dictInsert_of_not_mem d k0 (vals k0) hk0]
    simp only [List.nodup_cons] at hnd
    have hfresh2 : ∀ k, k ∈ rest →
        k ∉ (d ++ [(k0, vals k0)]).map Prod.fst := by
      intro k hk
      simp only [List.map_append, List.mem_append, List.map_cons,
        List.map_nil, List.mem_singleton, not_or]
      constructor
      · exact hfresh k (List.mem_cons_of_mem k0 hk)
      · intro he
        exact hnd.1 (he ▸ hk)
    obtain ⟨h1, h2⟩ := ih (d ++ [(k0, vals k0)]) hfresh2 hnd.2
    constructor
    · rw [h1]
      simp
    · intro k hk
      rw [h2 k (by simp only [List.map_append, List.mem_append]; exact Or.inl hk)]
      obtain ⟨v, hv⟩ := lookupStr_mem_keys d k hk
      rw [lookupStr_append_of_some d [(k0, vals k0)] k v hv, hv]

/-- C8 counterexample: an input mapping that already contains the key
stdFactor has its binding reassigned by the deriver (which writes the fixed
constant 4 over the supplied 99), so a deriver write DOES overwrite a key
set from the parsed input. -/
theorem c8_counterexample :
    lookupStr [("stdFactor", JVal.num 99)] "stdFactor" =
      some (JVal.num 99) ∧
    lookupStr (runDeriver [("stdFactor", JVal.num 99)] stdFactorVals)
      "stdFactor" = some (JVal.num 4) ∧
    JVal.num 99 ≠ JVal.num 4 := by
  refine ⟨rfl, rfl, by simp⟩

/-- C8 amended: the fourteen derived keys are pairwise distinct, so no
deriver write ever reassigns a key written by an earlier derivation step;
and whenever the parsed input shares no key with the derived-key list, the
store is append-only: the key list is extended (never shuffled) and every
input binding keeps its value. An input key that collides with a derived
name is, however, reassigned. -/
theorem c8_append_only (d : List (String × JVal)) (vals : String → JVal)
    (hdisj : ∀ k, k ∈ d.map Prod.fst → k ∉ derivedKeys) :
    derivedKeys.Nodup ∧
    (runDeriver d vals).map Prod.fst = d.map Prod.fst ++ derivedKeys ∧
    ∀ k, k ∈ d.map Prod.fst →
      lookupStr (runDeriver d vals) k = lookupStr d k := by
  have hnd : derivedKeys.Nodup := by decide
  have hfresh : ∀ k, k ∈ derivedKeys → k ∉ d.map Prod.fst :=
    fun k hk hmem => hdisj k hmem hk
  obtain ⟨h1, h2⟩ := foldl_dictInsert_fresh derivedKeys vals d hfresh hnd
  exact ⟨hnd, h1, h2⟩

/-- Witness for C8 on a concrete input store disjoint from the derived
keys. -/
theorem c8_append_only_witness :
    (runDeriver [("root", JVal.str "data")] stdFactorVals).map Prod.fst =
      ["root"] ++ derivedKeys ∧
    lookupStr (runDeriver [("root", JVal.str "data")] stdFactorVals)
      "root" = some (JVal.str "data") := by
  have h := c8_append_only [("root", JVal.str "data")] stdFactorVals
    (by decide)
  refine ⟨h.2.1, ?_⟩
  rw [h.2.2 "root" (by decide)]
  rfl

/-- Helper: when every schema-constrained entry is within its permitted set,
validation finds nothing. -/
theorem validate_none (validator : List (String × List String))
    (mapping : List (String × JVal))
    (h : ∀ k v vs, (k, v) ∈ mapping → lookupStr validator k = some vs →
      pyMem v vs = true) :
    validate validator mapping = none := by
  induction mapping with
  | nil => rfl
  | cons p rest ih =>
    obtain ⟨k1, v1⟩ := p
    have hrest : ∀ k v vs, (k, v) ∈ rest →
        lookupStr validator k = some vs → pyMem v vs = true :=
      fun k v vs hm hl => h k v vs (List.mem_cons_of_mem _ hm) hl
    cases hl : lookupStr validator k1 with
    | none =>
      simp only [validate, hl]
      exact ih hrest
    | some vs =>
      cases hemp : vs.isEmpty with
      | true =>
        simp only [validate, hl, hemp, if_pos]
        exact ih hrest
      | false =>
        have hp : pyMem v1 vs = true :=
          h k1 v1 vs (List.mem_cons_self _ _) hl
        simp only [validate, hl, hemp, hp]
        simpa using ih hrest

/-- Helper: a schema violation with a nonempty permitted set makes
validation return an error naming a violating entry, its key, and the
rendered permitted set. -/
theorem validate_some (validator : List (String × List String))
    (mapping : List (String × JVal))
    (h : ∃ k v vs, (k, v) ∈ mapping ∧ lookupStr validator k = some vs ∧
      vs ≠ [] ∧ pyMem v vs = false) :
    ∃ e, validate validator mapping = some e ∧
      (e.key, e.value) ∈ mapping ∧
      ∃ vs, lookupStr validator e.key = some vs ∧ vs ≠ [] ∧
        pyMem e.value vs = false ∧ e.validValues = prettyIterator vs := by
  induction mapping with
  | nil =>
    obtain ⟨k, v, vs, hm, _⟩ := h
    cases hm
  | cons p rest ih =>
    obtain ⟨k1, v1⟩ := p
    cases hl : lookupStr validator k1 with
    | none =>
      have hr : ∃ k v vs, (k, v) ∈ rest ∧ lookupStr validator k = some vs ∧
          vs ≠ [] ∧ pyMem v vs = false := by
        obtain ⟨k, v, vs, hm, hlk, hne, hpm⟩ := h
        rcases List.mem_cons.mp hm with he | hm2
        · have hk : k = k1 := congrArg Prod.fst he
          rw [hk, hl] at hlk
          cases hlk
        · exact ⟨k, v, vs, hm2, hlk, hne, hpm⟩
      obtain ⟨e, he1, he2, he3⟩ := ih hr
      refine ⟨e, ?_, List.mem_cons_of_mem _ he2, he3⟩
      simp only [validate, hl]
      exact he1
    | some vs =>
      cases hemp : vs.isEmpty with
      | true =>
        have hvs : vs = [] := by
          cases vs with
          | nil => rfl
          | cons a l => cases hemp
        have hr : ∃ k v vs, (k, v) ∈ rest ∧
            lookupStr validator k = some vs ∧
            vs ≠ [] ∧ pyMem v vs = false := by
          obtain ⟨k, v, vs2, hm, hlk, hne, hpm⟩ := h
          rcases List.mem_cons.mp hm with he | hm2
          · have hk : k = k1 := congrArg Prod.fst he
            rw [hk, hl] at hlk
            injection hlk with hv2
            rw [← hv2, hvs] at hne
            exact absurd rfl hne
          · exact ⟨k, v, vs2, hm2, hlk, hne, hpm⟩
        obtain ⟨e, he1, he2, he3⟩ := ih hr
        refine ⟨e, ?_, List.mem_cons_of_mem _ he2, he3⟩
        simp only [validate, hl, hemp, if_pos]
        exact he1
      | false =>
        by_cases hpm1 : pyMem v1 vs = true
        · have hr : ∃ k v vs, (k, v) ∈ rest ∧
              lookupStr validator k = some vs ∧
              vs ≠ [] ∧ pyMem v vs = false := by
            obtain ⟨k, v, vs2, hm, hlk, hne, hpm⟩ := h
            rcases List.mem_cons.mp hm with he | hm2
            · have hk : k = k1 := congrArg Prod.fst he
              have hv : v = v1 := congrArg Prod.snd he
              rw [hk, hl] at hlk
              injection hlk with hv2
              rw [hv, ← hv2] at hpm
              rw [hpm1] at hpm
              cases hpm
            · exact ⟨k, v, vs2, hm2, hlk, hne, hpm⟩
          obtain ⟨e, he1, he2, he3⟩ := ih hr
          refine ⟨e, ?_, List.mem_cons_of_mem _ he2, he3⟩
          simp only [validate, hl, hemp, hpm1]
          simpa using he1
        · have hpm1f : pyMem v1 vs = false := by
            cases hx : pyMem v1 vs with
            | true => exact absurd hx hpm1
            | false => rfl
          have hne : vs ≠ [] := by
            intro hv
            rw [hv] at hemp
            cases hemp
          refine ⟨⟨v1, k1, prettyIterator vs⟩, ?_, List.mem_cons_self _ _,
            vs, hl, hne, hpm1f, rfl⟩
          simp only [validate, hl, hemp, hpm1f]
          simp

/-- C5 counterexample: a schema key whose permitted list is EMPTY is skipped
by the Python truthiness guard (if valid_values:), so a supplied value that
is outside that (empty) permitted set raises no error and construction
succeeds. -/
theorem c5_counterexample :
    pyMem (JVal.str "relu") [] = false ∧
    validate [("detectFilter", [])]
      [("detectFilter", JVal.str "relu")] = none ∧
    configInit [("detectFilter", [])] [("detectFilter", JVal.str "relu")]
      stdFactorVals =
      Except.ok (runDeriver (buildData [("detectFilter", JVal.str "relu")])
        stdFactorVals) := by
  refine ⟨rfl, rfl, rfl⟩

/-- C5 amended: for every input mapping containing a schema-constrained key
with a NONEMPTY permitted set whose supplied value lies outside that set,
construction fails with a ValidationError naming an offending value, its
key and the rendered permitted set, before any store (hence any derived
field) is built; when every schema-constrained value lies in its permitted
set, validation finds no violation and construction proceeds. -/
theorem c5_schema_validation (validator : List (String × List String))
    (mapping : List (String × JVal)) (vals : String → JVal) :
    ((∃ k v vs, (k, v) ∈ mapping ∧ lookupStr validator k = some vs ∧
        vs ≠ [] ∧ pyMem v vs = false) →
      ∃ e, configInit validator mapping vals = Except.error e ∧
        (e.key, e.value) ∈ mapping ∧
        ∃ vs, lookupStr validator e.key = some vs ∧ vs ≠ [] ∧
          pyMem e.value vs = false ∧ e.validValues = prettyIterator vs) ∧
    ((∀ k v vs, (k, v) ∈ mapping → lookupStr validator k = some vs →
        pyMem v vs = true) →
      validate validator mapping = none ∧
      configInit validator mapping vals =
        Except.ok (runDeriver (buildData mapping) vals)) := by
  constructor
  · intro h
    obtain ⟨e, he, he2, he3⟩ := validate_some validator mapping h
    refine ⟨e, ?_, he2, he3⟩
    simp only [configInit, he]
  · intro h
    have hn := validate_none validator mapping h
    refine ⟨hn, ?_⟩
    simp only [configInit, hn]

/-- Witness for C5 on the dtype schema entry of the bundled validator: the
unsupported value int8 aborts construction, the supported value int16
validates. -/
theorem c5_schema_validation_witness :
    (∃ e, configInit [("dtype", ["int16", "uint16", "single", "double"])]
        [("dtype", JVal.str "int8")] stdFactorVals = Except.error e) ∧
    validate [("dtype", ["int16", "uint16", "single", "double"])]
      [("dtype", JVal.str "int16")] = none := by
  constructor
  · obtain ⟨e, he, _⟩ :=
      (c5_schema_validation [("dtype", ["int16", "uint16", "single",
        "double"])] [("dtype", JVal.str "int8")] stdFactorVals).1
        ⟨"dtype", JVal.str "int8", ["int16", "uint16", "single", "double"],
          by simp, rfl, by simp, by decide⟩
    exact ⟨e, he⟩
  · refine ((c5_schema_validation [("dtype", ["int16", "uint16", "single",
      "double"])] [("dtype", JVal.str "int16")] stdFactorVals).2 ?_).1
    intro k v vs hm hl
    simp only [List.mem_singleton, Prod.mk.injEq] at hm
    obtain ⟨hk, hv⟩ := hm
    subst hk
    subst hv
    simp only [lookupStr, if_pos rfl] at hl
    injection hl with hvs
    rw [← hvs]
    decide

/-- C6: indexed lookup (FrozenJSON.__getitem__) returns the stored raw value
when present and non-null, and fails with the diagnostic error carrying the
key, the source path and the full stored key list exactly when the stored
value is absent or explicitly null. -/
theorem c6_get_item (d : List (String × JVal)) (p : Option String)
    (key : String) :
    (∀ v, lookupStr d key = some v → v ≠ JVal.null →
      getItem ⟨d, p⟩ key = Except.ok v) ∧
    ((lookupStr d key = none ∨ lookupStr d key = some JVal.null) ↔
      getItem ⟨d, p⟩ key = Except.error ⟨key, p, keysOf d⟩) := by
  constructor
  · intro v hv hnull
    cases v with
    | null => exact absurd rfl hnull
    | bool b => simp [getItem, hv]
    | num n => simp [getItem, hv]
    | str s => simp [getItem, hv]
    | arr xs => simp [getItem, hv]
    | obj kvs => simp [getItem, hv]
  · cases h : lookupStr d key with
    | none => simp [getItem, h]
    | some v => cases v <;> simp [getItem, h]

/-- Witness for C6 on a concrete store with a present value, a stored null
and an absent key. -/
theorem c6_get_item_witness :
    getItem ⟨[("nChan", JVal.num 10), ("geomFile", JVal.null)], none⟩
      "nChan" = Except.ok (JVal.num 10) ∧
    getItem ⟨[("nChan", JVal.num 10), ("geomFile", JVal.null)], none⟩
      "geomFile" =
      Except.error ⟨"geomFile", none, ["nChan", "geomFile"]⟩ ∧
    getItem ⟨[("nChan", JVal.num 10), ("geomFile", JVal.null)], none⟩
      "srate" = Except.error ⟨"srate", none, ["nChan", "geomFile"]⟩ := by
  refine ⟨?_, ?_, ?_⟩
  · exact (c6_get_item [("nChan", JVal.num 10), ("geomFile", JVal.null)]
      none "nChan").1 (JVal.num 10) rfl (by simp)
  · exact (c6_get_item [("nChan", JVal.num 10), ("geomFile", JVal.null)]
      none "geomFile").2.mp (Or.inr rfl)
  · exact (c6_get_item [("nChan", JVal.num 10), ("geomFile", JVal.null)]
      none "srate").2.mp (Or.inl rfl)

/-- C4 counterexample: the AttributeError raised for a non-underscore field
carries a fixed message that does not mention the offending field name - the
message for two different field names is identical, and the field name does
not occur in it. -/
theorem c4_counterexample :
    (configSetattr ⟨[], []⟩ "spikeSize" (JVal.num 1)).1 =
      some ⟨immutableMsg⟩ ∧
    containsSub immutableMsg "spikeSize" = false ∧
    (configSetattr ⟨[], []⟩ "spikeSize" (JVal.num 1)).1 =
      (configSetattr ⟨[], []⟩ "nChan" (JVal.num 2)).1 := by
  refine ⟨rfl, by decide, rfl⟩

/-- C4 amended: after construction, setting any field whose name does not
start with an underscore fails with an AttributeError whose message is the
fixed string immutableMsg (not naming the field), and the state is
untouched; underscore-prefixed fields remain settable. -/
theorem c4_immutability_guard (st : ConfigState) (name : String) (v : JVal) :
    (startsUnderscore name = false →
      configSetattr st name v = (some ⟨immutableMsg⟩, st)) ∧
    (startsUnderscore name = true →
      configSetattr st name v =
        (none, ⟨dictInsert st.internal name v, st.data⟩)) := by
  constructor <;> intro h <;> simp [configSetattr, h]

/-- Witness for C4 on a concrete external write and a concrete internal
write. -/
theorem c4_immutability_guard_witness :
    configSetattr ⟨[], []⟩ "spikeSize2" JVal.null =
      (some ⟨immutableMsg⟩, ⟨[], []⟩) ∧
    configSetattr ⟨[], []⟩ "_cache" JVal.null =
      (none, ⟨[("_cache", JVal.null)], []⟩) := by
  constructor
  · exact (c4_immutability_guard ⟨[], []⟩ "spikeSize2" JVal.null).1 (by decide)
  · have h := (c4_immutability_guard ⟨[], []⟩ "_cache" JVal.null).2 (by decide)
    rw [h]
    rfl

/-- C10: a rejected external write (non-underscore field after construction)
leaves the whole Config state unchanged: the instance slots and the _data
store are exactly as before. -/
theorem c10_failed_write_no_effect (st : ConfigState) (name : String)
    (v : JVal) (h : startsUnderscore name = false) :
    (configSetattr st name v).2 = st ∧
    (configSetattr st name v).2.data = st.data ∧
    (configSetattr st name v).2.internal = st.internal := by
  simp [configSetattr, h]

/-- Witness for C10 on a concrete populated state. -/
theorem c10_failed_write_no_effect_witness :
    (configSetattr ⟨[("_data", JVal.null)], [("nChan", JVal.num 10)]⟩
      "nBatches" (JVal.num 7)).2 =
      ⟨[("_data", JVal.null)], [("nChan", JVal.num 10)]⟩ :=
  (c10_failed_write_no_effect
    ⟨[("_data", JVal.null)], [("nChan", JVal.num 10)]⟩
    "nBatches" (JVal.num 7) (by decide)).1

/-- C9: a name that is neither a member of the raw dict object nor a stored
key makes attribute access fail with a plain KeyError carrying only the
name, while the same lookup through get_item produces the diagnostic error
with source path and available keys. -/
theorem c9_getattr_key_error (fj : FacadeData) (name : String)
    (hattr : name ∉ dictAttrNames)
    (hkey : lookupStr fj.data name = none) :
    getattr fj name = AttrResult.keyError name ∧
    getItem fj name = Except.error ⟨name, fj.pathToFile, keysOf fj.data⟩ := by
  constructor
  · simp [getattr, hattr, hkey]
  · simp [getItem, hkey]

/-- Witness for C9 on a concrete facade and absent name. -/
theorem c9_getattr_key_error_witness :
    getattr ⟨[("nChan", JVal.num 10)], none⟩ "srate" =
      AttrResult.keyError "srate" ∧
    getItem ⟨[("nChan", JVal.num 10)], none⟩ "srate" =
      Except.error ⟨"srate", none, ["nChan"]⟩ :=
  c9_getattr_key_error ⟨[("nChan", JVal.num 10)], none⟩ "srate"
    (by decide) rfl

end Yass
